import Mathlib

/-!
Verification of the guild-vision-bot pipeline (`src/main.py`).

The development shallowly embeds the parts of the program the properties
talk about:

* `extract_names_and_points` (main.py lines 164-190): the local OCR line
  parser.  Python's `re.search` on the fixed pattern
  `([A-Za-z0-9_ -]+)\s*(\d{3,5})` is embedded directly, including the
  greedy left-to-right backtracking order of the regex engine, for ASCII
  text.
* the deduplicating export block (lines 331-340), i.e. pandas
  `drop_duplicates(subset=["Name", "Points"])` keep-first semantics.
* `extract_with_gemini` (lines 77-134): credential check, payload
  construction, response cleaning, JSON shape dispatch and the
  `try/except` control flow.  The remote service, the file system and
  `json.loads` are external collaborators and appear as components of an
  environment record.
* the screenshot capture loop of `__main__` (lines 254-308): stop flag,
  capture errors, `np.array_equal` duplicate detection with the
  three-identical-frames stop rule and the `MAX_CAPTURES` iteration cap.
-/

/-! ## Characters and small scanning helpers -/

/-- Length of the longest prefix of `l` whose characters all satisfy `p`. -/
def countRun (p : Char → Bool) : List Char → Nat
  | [] => 0
  | c :: cs => if p c then countRun p cs + 1 else 0

/-- Characters matched by the regex class `[A-Za-z0-9_ -]` (the "name" group). -/
def isNameChar (c : Char) : Bool :=
  c.isAlpha || c.isDigit || c = '_' || c = ' ' || c = '-'

/-- Python whitespace (`\s`, `str.strip`), ASCII part. -/
def isPyWS (c : Char) : Bool :=
  c = ' ' || c = '\t' || c = '\n' || c = '\r' || c = '\x0b' || c = '\x0c'

/-- Characters kept by `re.sub(r"[^A-Za-z0-9_ ]", "", name)`. -/
def isKeptChar (c : Char) : Bool :=
  c.isAlpha || c.isDigit || c = '_' || c = ' '

/-- Remove trailing Python whitespace. -/
def dropTrailingWS (l : List Char) : List Char :=
  (l.reverse.dropWhile isPyWS).reverse

/-- Python `str.strip()` on a character list. -/
def pyStrip (l : List Char) : List Char :=
  dropTrailingWS (l.dropWhile isPyWS)

/-- Python `str.split("\n")` on a character list. -/
def splitNl : List Char → List (List Char)
  | [] => [[]]
  | c :: cs =>
    if c = '\n' then [] :: splitNl cs
    else
      match splitNl cs with
      | [] => [[c]]
      | l :: ls => (c :: l) :: ls

/-- Numeric value of a digit string, as computed by Python `int`. -/
def digitsVal (l : List Char) : Nat :=
  l.foldl (fun acc c => 10 * acc + (c.toNat - 48)) 0

/-! ## The line parser of `extract_names_and_points`

`re.search(r"([A-Za-z0-9_ -]+)\s*(\d{3,5})", line)` is embedded with the
regex engine's strategy: starting positions are tried left to right; at a
given start the greedy group `([A-Za-z0-9_ -]+)` first takes the whole
run of name characters and gives characters back one at a time; `\s*`
can only usefully take the whole whitespace run (digits are not
whitespace); `\d{3,5}` greedily takes at most five digits and succeeds
when at least three are available. -/

/-- Attempt the tail of the pattern after fixing the first group to the
first `n` characters of `t`: skip whitespace, then require three to five
digits.  Returns `(group 1, group 2)` on success. -/
def checkAt (t : List Char) (n : Nat) : Option (List Char × List Char) :=
  let rest := t.drop n
  let rest2 := rest.drop (countRun isPyWS rest)
  let d := min (countRun Char.isDigit rest2) 5
  if 3 ≤ d then some (t.take n, rest2.take d) else none

/-- Backtracking of the greedy first group: try group-1 lengths from `k`
down to `1`, first success wins. -/
def tryLens (t : List Char) : Nat → Option (List Char × List Char)
  | 0 => none
  | n + 1 =>
    match checkAt t (n + 1) with
    | some r => some r
    | none => tryLens t n

/-- Scan of `re.search`: try every start position from the left; at each
start the greedy group initially takes the full run of name characters. -/
def searchChars : List Char → Option (List Char × List Char)
  | [] => none
  | c :: cs =>
    match tryLens (c :: cs) (countRun isNameChar (c :: cs)) with
    | some r => some r
    | none => searchChars cs

/-- MemberRecord of the data model: one extracted (Name, Points) row. -/
structure Member where
  Name : String
  Points : Int
deriving DecidableEq, Repr

/-- Name cleaning of the parser: `match.group(1).strip()`, then
`re.sub(r"[^A-Za-z0-9_ ]", "", name).strip()`. -/
def cleanName (g : List Char) : List Char :=
  pyStrip ((pyStrip g).filter isKeptChar)

/-- Processing of a single line of OCR text (body of the `for line in
lines` loop): strip the line, skip it when empty, search the pattern, and
build the record from the cleaned name and the integer points. -/
def parseLineChars (line : List Char) : Option Member :=
  let l := pyStrip line
  if l.isEmpty then none
  else
    match searchChars l with
    | none => none
    | some (g1, g2) => some ⟨⟨cleanName g1⟩, Int.ofNat (digitsVal g2)⟩

/-- Embedding of `extract_names_and_points` (main.py lines 164-190). -/
def extract_names_and_points (text : String) : List Member :=
  (splitNl text.toList).filterMap parseLineChars

/-! ## Deduplicating export (main.py lines 331-340)

`pd.DataFrame(rows).drop_duplicates(subset=["Name", "Points"])` keeps,
for every value of the key pair, the first row carrying it. -/

/-- Keep-first deduplication by a key, with an accumulator of already
seen keys; `keq` is the equality used on keys. -/
def drop_duplicates {α κ : Type} (key : α → κ) (keq : κ → κ → Bool)
    (seen : List κ) : List α → List α
  | [] => []
  | r :: rs =>
    if seen.any (keq (key r)) then drop_duplicates key keq seen rs
    else r :: drop_duplicates key keq (key r :: seen) rs

/-- Deduplication key of the export block: the (Name, Points) pair. -/
def memberKey (m : Member) : String × Int := (m.Name, m.Points)

/-- Rows of the exported spreadsheet for an input list of records:
`drop_duplicates(subset=["Name", "Points"])` with first-seen-survives. -/
def member_export (l : List Member) : List Member :=
  drop_duplicates memberKey (fun a b => a == b) [] l

/-! ## JSON values and the remote extraction path (main.py lines 77-134) -/

/-- JSON values as returned by `json.loads`. -/
inductive Json where
  | null
  | bool (b : Bool)
  | num (n : Int)
  | str (s : String)
  | arr (elems : List Json)
  | obj (fields : List (String × Json))
deriving Repr

mutual

/-- Structural equality of JSON values. -/
def Json.beq : Json → Json → Bool
  | .null, .null => true
  | .bool a, .bool b => a == b
  | .num a, .num b => a == b
  | .str a, .str b => a == b
  | .arr xs, .arr ys => Json.beqList xs ys
  | .obj fs, .obj gs => Json.beqFields fs gs
  | _, _ => false

/-- Structural equality of JSON arrays. -/
def Json.beqList : List Json → List Json → Bool
  | [], [] => true
  | x :: xs, y :: ys => Json.beq x y && Json.beqList xs ys
  | _, _ => false

/-- Structural equality of JSON object field lists. -/
def Json.beqFields : List (String × Json) → List (String × Json) → Bool
  | [], [] => true
  | (k, v) :: fs, (k2, v2) :: gs => k == k2 && Json.beq v v2 && Json.beqFields fs gs
  | _, _ => false

end

/-- Value of a key in a JSON object field list; on duplicate keys the
last binding wins, as in a Python dict built by `json.loads`. -/
def lookupLast (k : String) : List (String × Json) → Option Json
  | [] => none
  | (k2, v) :: rest =>
    match lookupLast k rest with
    | some r => some r
    | none => if k2 == k then some v else none

/-- Test of `if "players" in data and isinstance(data["players"], list)`:
the parsed response must be an object whose `"players"` key holds a JSON
array.  (Every other shape of `data` either fails this test or raises a
`TypeError` inside the `try` block, which the handler catches with
`response` bound; both ways the function returns the empty list.) -/
def playersListOf : Json → Option (List Json)
  | .obj fields =>
    match lookupLast "players" fields with
    | some (.arr l) => some l
    | _ => none
  | _ => none

/-- Column values of an exported row: a JSON object yields the value of
the column key, anything else yields no value. -/
def rowField (k : String) : Json → Option Json
  | .obj fields => lookupLast k fields
  | _ => none

/-- Equality of optional JSON key values. -/
def optJeqb : Option Json → Option Json → Bool
  | none, none => true
  | some a, some b => Json.beq a b
  | _, _ => false

/-- Equality of (Name, Points) key pairs of raw response rows. -/
def rowKeyEq (a b : Option Json × Option Json) : Bool :=
  optJeqb a.1 b.1 && optJeqb a.2 b.2

/-- Deduplicated spreadsheet rows built from the raw response rows. -/
def export_rows (records : List Json) : List Json :=
  drop_duplicates (fun r => (rowField "Name" r, rowField "Points" r)) rowKeyEq [] records

/-- Export block of `__main__` (lines 331-340): a spreadsheet is written
only when at least one record was extracted (`if all_guild_members_data:`);
its rows are the deduplicated records.  `none` means no file is written. -/
def export_step (records : List Json) : Option (List Json) :=
  if records.isEmpty then none else some (export_rows records)

/-- Remove every non-overlapping occurrence of `pat` from `s`, scanning
left to right (Python `str.replace(pat, "")`), with explicit fuel; one
character or one whole occurrence is consumed per step, so `s.length`
fuel always suffices. -/
def removeOccFuel (pat : List Char) : Nat → List Char → List Char
  | 0, s => s
  | _ + 1, [] => []
  | fuel + 1, c :: rest =>
    if pat.isPrefixOf (c :: rest) && !pat.isEmpty then
      removeOccFuel pat fuel (rest.drop (pat.length - 1))
    else c :: removeOccFuel pat fuel rest

/-- Python `s.replace(pat, "")`. -/
def removeOcc (pat s : List Char) : List Char :=
  removeOccFuel pat s.length s

/-- Cleaning of the response text before `json.loads`:
`response.text.strip().replace("```json", "").replace("```", "")`. -/
def cleanResponse (text : String) : String :=
  ⟨removeOcc "```".toList (removeOcc "```json".toList (pyStrip text.toList))⟩

/-- Prompt sent to the remote model (main.py lines 98-107). -/
def geminiPrompt : String :=
  "Analyze the following screenshots from a game's guild member list. " ++
  "For each image, extract the player names and their corresponding points. " ++
  "Player names are on the left, and points are numerical values to the right of the name. " ++
  "Ignore any text that is not a player name and points pair. " ++
  "Return the result as a single JSON object with a key \"players\" which is a list of objects. " ++
  "Each object in the list should have two keys: \"Name\" (string) and \"Points\" (integer). " ++
  "Example format: \x7b\"players\": [\x7b\"Name\": \"Player1\", \"Points\": 1500\x7d, " ++
  "\x7b\"Name\": \"Player2\", \"Points\": 1450\x7d]\x7d " ++
  "Do not include players with the same name and points multiple times. " ++
  "Members can have 0 points, with the field left empty."

/-- Request contents: the prompt followed by one binary part per image,
holding the bytes of the image file (`types.Part.from_bytes(data=...,
mime_type="image/png")`). -/
structure Payload where
  prompt : String
  parts : List (List Nat)
deriving DecidableEq, Repr

/-- External collaborators of `extract_with_gemini`: the credential
lookup, the file system, the remote call and the stdlib JSON parser.
`request` returns the response text, or an error when the call raises;
`loads` returns `none` when `json.loads` raises. -/
structure GeminiEnv where
  apiKey : Option String
  fs : String → List Nat
  request : Payload → Except String String
  loads : String → Option Json

/-- Python exceptions that escape the embedded code. -/
inductive PyError where
  | nameError
deriving DecidableEq, Repr

/-- Contents built by the loop over `image_paths` (lines 108-114): the
prompt and the raw bytes of every image file, in order.  No other datum
enters the request. -/
def buildPayload (fs : String → List Nat) (image_paths : List String) : Payload :=
  { prompt := geminiPrompt, parts := image_paths.map fs }

/-- Embedding of `extract_with_gemini` (main.py lines 77-134).  The
`resize_factor` parameter is accepted and never used, as in the source.
When the remote call itself raises, the `except` handler evaluates
`response.text` with the local variable `response` never assigned, so the
handler raises `NameError`, which propagates to the caller. -/
def extract_with_gemini {α : Type} (env : GeminiEnv) (image_paths : List String)
    (resize_factor : α) : Except PyError (List Json) :=
  match env.apiKey with
  | none => .ok []
  | some _ =>
    match env.request (buildPayload env.fs image_paths) with
    | .error _ => .error PyError.nameError
    | .ok text =>
      match env.loads (cleanResponse text) with
      | none => .ok []
      | some data =>
        match playersListOf data with
        | some players => .ok players
        | none => .ok []

/-! ## Capture loop of `__main__` (main.py lines 254-308) -/

/-- Iteration cap of the capture loop. -/
def MAX_CAPTURES : Nat := 1000

/-- Embedding of `np.array_equal` on two frames: same shape and equal
pixels everywhere, i.e. equality of the nested pixel lists. -/
def array_equal {α : Type} [DecidableEq α] (a b : List (List α)) : Bool :=
  a == b

/-- File name of the `i`-th screenshot. -/
def screenshotFilename (i : Nat) : String :=
  "analysis/guild_screenshot_" ++ toString i ++ ".png"

/-- One state of the capture loop: remaining iterations of
`for i in range(MAX_CAPTURES)`, current index `i`, the
`consecutive_same_captures` counter and the previous frame.  `frames i`
is the screen content captured at iteration `i`; `stopFlag i` is the
value of the GUI stop flag read at iteration `i`; `captureError i` tells
whether the capture backend raises at iteration `i` (before the file is
recorded).  Returns the indices of the screenshots taken from this state
on. -/
def capture_loop_aux {α : Type} [DecidableEq α] (frames : Nat → List (List α))
    (stopFlag captureError : Nat → Bool) :
    Nat → Nat → Nat → Option (List (List α)) → List Nat
  | 0, _, _, _ => []
  | fuel + 1, i, consec, prev =>
    if stopFlag i then []
    else if captureError i then []
    else
      let consec2 :=
        match prev with
        | some p => if array_equal (frames i) p then consec + 1 else 0
        | none => consec
      if 2 ≤ consec2 then [i]
      else i :: capture_loop_aux frames stopFlag captureError fuel (i + 1) consec2 (some (frames i))

/-- The capture phase: indices of the screenshot files collected by the
loop, starting from index 0 with no previous frame and a zero counter. -/
def capture_loop {α : Type} [DecidableEq α] (frames : Nat → List (List α))
    (stopFlag captureError : Nat → Bool) : List Nat :=
  capture_loop_aux frames stopFlag captureError MAX_CAPTURES 0 0 none

/-- Whole-run environment: the capture-phase inputs and the extraction
environment. -/
structure RunEnv (α : Type) where
  frames : Nat → List (List α)
  stopFlag : Nat → Bool
  captureError : Nat → Bool
  gemini : GeminiEnv

/-- Composition of the default mode of `__main__`: capture, then analyse
the collected screenshot files when there are any (`if screenshot_files:`),
then export when at least one record was extracted.  Returns the
screenshot file list, the extracted records and the written spreadsheet
rows (`none` when no file is written); an uncaught Python exception
aborts the run with `.error`. -/
def mainRun {α β : Type} [DecidableEq α] (env : RunEnv α) (resize_factor : β) :
    Except PyError (List String × List Json × Option (List Json)) :=
  let files := (capture_loop env.frames env.stopFlag env.captureError).map screenshotFilename
  match (if files.isEmpty then Except.ok [] else
           extract_with_gemini env.gemini files resize_factor) with
  | .error e => .error e
  | .ok records => .ok (files, records, export_step records)

/-! ## Auxiliary definitions for concrete runs -/

/-- Boolean test: does the list contain three consecutive digit characters
(equivalently, a run of 3 to 5 digits as a substring)? -/
def hasRun3 : List Char → Bool
  | c1 :: c2 :: c3 :: rest =>
    (c1.isDigit && c2.isDigit && c3.isDigit) || hasRun3 (c2 :: c3 :: rest)
  | _ => false

/-- Concrete environment: the credential variable is unset. -/
def geminiEnvNoKey : GeminiEnv :=
  { apiKey := none, fs := fun _ => [], request := fun _ => .ok "",
    loads := fun _ => none }

/-- Concrete environment: credential set, the remote call raises. -/
def geminiEnvReqFail : GeminiEnv :=
  { apiKey := some "k", fs := fun _ => [], request := fun _ => .error "network unreachable",
    loads := fun _ => none }

/-- Concrete environment: credential set, the remote call returns text
that `json.loads` rejects. -/
def geminiEnvBadJson : GeminiEnv :=
  { apiKey := some "k", fs := fun _ => [], request := fun _ => .ok "this is not json",
    loads := fun _ => none }

/-- Concrete run: the screen never changes (capture stops after three
identical frames) and the remote response is malformed. -/
def runEnvBadJson : RunEnv Nat :=
  { frames := fun _ => [[0]], stopFlag := fun _ => false,
    captureError := fun _ => false, gemini := geminiEnvBadJson }

/-- Concrete run: the capture backend raises at iteration 1. -/
def runEnvCapErr : RunEnv Nat :=
  { frames := fun i => [[i]], stopFlag := fun _ => false,
    captureError := fun i => decide (1 ≤ i), gemini := geminiEnvBadJson }

/-! ## Theorems -/

/-- `np.array_equal` reports `true` exactly on equal pixel matrices. -/
theorem array_equal_eq_true {α : Type} [DecidableEq α] (a b : List (List α)) :
    array_equal a b = true ↔ a = b := by
  simp [array_equal]

/-- C7: for every list of image paths, calling `extract_with_gemini` when
the credential environment variable is unset returns an empty list and
does not raise, and no remote request is issued (the result is the same
whatever the remote service would have answered). -/
theorem c7_missing_credential {α : Type} (env : GeminiEnv) (image_paths : List String)
    (rz : α) (r1 r2 : Payload → Except String String)
    (h : env.apiKey = none) :
    extract_with_gemini env image_paths rz = .ok [] ∧
    extract_with_gemini { env with request := r1 } image_paths rz =
      extract_with_gemini { env with request := r2 } image_paths rz := by
  have h1 : ∀ e : GeminiEnv, e.apiKey = none →
      extract_with_gemini e image_paths rz = .ok [] := by
    intro e he
    unfold extract_with_gemini
    rw [he]
  exact ⟨h1 env h, by rw [h1 { env with request := r1 } h, h1 { env with request := r2 } h]⟩

/-- C7 witness: concrete run with the credential unset. -/
theorem c7_missing_credential_witness :
    extract_with_gemini geminiEnvNoKey ["analysis/guild_screenshot_0.png"] (1 : Nat) = .ok [] ∧
    extract_with_gemini { geminiEnvNoKey with request := fun _ => .error "boom" }
      ["analysis/guild_screenshot_0.png"] (1 : Nat) =
    extract_with_gemini { geminiEnvNoKey with request := fun _ => .ok "anything" }
      ["analysis/guild_screenshot_0.png"] (1 : Nat) :=
  c7_missing_credential geminiEnvNoKey ["analysis/guild_screenshot_0.png"] 1
    (fun _ => .error "boom") (fun _ => .ok "anything") rfl

/-- C8: the transmitted payload is the prompt plus the raw bytes of each
image file, unmodified, and neither the payload nor the result of
`extract_with_gemini` depends on the resize factor argument. -/
theorem c8_resize_factor_dead {α : Type} (env : GeminiEnv) (image_paths : List String)
    (f1 f2 : α) :
    buildPayload env.fs image_paths =
      { prompt := geminiPrompt, parts := image_paths.map env.fs } ∧
    extract_with_gemini env image_paths f1 = extract_with_gemini env image_paths f2 :=
  ⟨rfl, rfl⟩

/-- C3 (code bug): when the credential is set and the remote call itself
raises, the `except` handler evaluates `response.text` with `response`
unbound, so `extract_with_gemini` propagates a `NameError` to its caller
instead of returning an empty list. -/
theorem c3_request_failure_raises {α : Type} (env : GeminiEnv) (image_paths : List String)
    (rz : α) (k e : String)
    (hk : env.apiKey = some k)
    (hr : env.request (buildPayload env.fs image_paths) = .error e) :
    extract_with_gemini env image_paths rz = .error PyError.nameError := by
  unfold extract_with_gemini
  rw [hk, hr]

/-- C3 witness: concrete failing request. -/
theorem c3_request_failure_raises_witness :
    extract_with_gemini geminiEnvReqFail ["analysis/guild_screenshot_0.png"] (1 : Nat) =
      .error PyError.nameError :=
  c3_request_failure_raises geminiEnvReqFail ["analysis/guild_screenshot_0.png"] 1
    "k" "network unreachable" rfl rfl

/-- C2 counterexample: on the line `"PlayerOne 1500"` the greedy name
group absorbs the `1`, so the parser returns Name `"PlayerOne 1"` with
Points `500`, not the record the claim states. -/
theorem c2_counterexample :
    extract_names_and_points "PlayerOne 1500" = [⟨"PlayerOne 1", 500⟩] ∧
    extract_names_and_points "PlayerOne 1500" ≠ [⟨"PlayerOne", 1500⟩] := by
  exact ⟨by decide, by decide⟩

/-! ### Lemmas about the line scanner -/

/-- A run count of at least three exposes three leading characters
satisfying the predicate. -/
theorem countRun_three {p : Char → Bool} : ∀ {l : List Char}, 3 ≤ countRun p l →
    ∃ c1 c2 c3 r, l = c1 :: c2 :: c3 :: r ∧ p c1 = true ∧ p c2 = true ∧ p c3 = true := by
  intro l h
  rcases l with _ | ⟨c1, l⟩
  · simp [countRun] at h
  rcases l with _ | ⟨c2, l⟩
  · by_cases h1 : p c1 = true <;> simp [countRun, h1] at h
  rcases l with _ | ⟨c3, r⟩
  · by_cases h1 : p c1 = true <;> by_cases h2 : p c2 = true <;> simp [countRun, h1, h2] at h
  by_cases h1 : p c1 = true
  case neg => simp [countRun, h1] at h
  by_cases h2 : p c2 = true
  case neg => simp [countRun, h1, h2] at h
  by_cases h3 : p c3 = true
  case neg => simp [countRun, h1, h2, h3] at h
  exact ⟨c1, c2, c3, r, rfl, h1, h2, h3⟩

/-- Every character of `l.take d` satisfies `p` when `d` does not exceed
the run length. -/
theorem countRun_take_all {p : Char → Bool} : ∀ {l : List Char} {d : Nat},
    d ≤ countRun p l → ∀ c ∈ l.take d, p c = true := by
  intro l
  induction l with
  | nil => intro d _ c hc; simp at hc
  | cons x xs ih =>
    intro d hd c hc
    cases d with
    | zero => simp at hc
    | succ d =>
      by_cases hx : p x = true
      · simp [countRun, hx] at hd
        rcases (by simpa using hc : c = x ∨ c ∈ xs.take d) with h | h
        · exact h ▸ hx
        · exact ih (by omega) c h
      · simp [countRun, hx] at hd

/-- Extending a list on the left preserves a found digit triple. -/
theorem hasRun3_cons {r : List Char} (x : Char) (h : hasRun3 r = true) :
    hasRun3 (x :: r) = true := by
  rcases r with _ | ⟨y, _ | ⟨z, w⟩⟩
  · simp [hasRun3] at h
  · simp [hasRun3] at h
  · simp [hasRun3] at h ⊢
    tauto

/-- A list that contains three consecutive digits has `hasRun3`. -/
theorem hasRun3_of_append : ∀ (a : List Char) {c1 c2 c3 : Char} (b : List Char),
    c1.isDigit = true → c2.isDigit = true → c3.isDigit = true →
    hasRun3 (a ++ c1 :: c2 :: c3 :: b) = true := by
  intro a
  induction a with
  | nil => intro c1 c2 c3 b h1 h2 h3; simp [hasRun3, h1, h2, h3]
  | cons x a ih =>
    intro c1 c2 c3 b h1 h2 h3
    exact hasRun3_cons x (ih b h1 h2 h3)

/-- Inversion of `hasRun3`: a digit triple can be located. -/
theorem hasRun3_exists : ∀ {l : List Char}, hasRun3 l = true →
    ∃ a c1 c2 c3 b, l = a ++ c1 :: c2 :: c3 :: b ∧
      c1.isDigit = true ∧ c2.isDigit = true ∧ c3.isDigit = true := by
  intro l h
  induction l with
  | nil => simp [hasRun3] at h
  | cons x l ih =>
    rcases l with _ | ⟨y, _ | ⟨z, w⟩⟩
    · simp [hasRun3] at h
    · simp [hasRun3] at h
    · rw [hasRun3] at h
      rcases (by simpa using h :
          ((x.isDigit = true ∧ y.isDigit = true) ∧ z.isDigit = true) ∨
            hasRun3 (y :: z :: w) = true) with ⟨⟨h1, h2⟩, h3⟩ | h2
      · exact ⟨[], x, y, z, w, rfl, h1, h2, h3⟩
      · obtain ⟨a, c1, c2, c3, b, heq, hd1, hd2, hd3⟩ := ih h2
        exact ⟨x :: a, c1, c2, c3, b, by simp [heq], hd1, hd2, hd3⟩

/-- Middles are preserved: a digit triple inside an infix is a digit
triple of the whole list. -/
theorem hasRun3_of_middle {m : List Char} (a b : List Char) (h : hasRun3 m = true) :
    hasRun3 (a ++ m ++ b) = true := by
  obtain ⟨a2, c1, c2, c3, b2, heq, h1, h2, h3⟩ := hasRun3_exists h
  have : a ++ m ++ b = (a ++ a2) ++ c1 :: c2 :: c3 :: (b2 ++ b) := by
    rw [heq]; simp
  rw [this]
  exact hasRun3_of_append (a ++ a2) (b2 ++ b) h1 h2 h3

/-- Unfolding a successful `checkAt`. -/
theorem checkAt_some {t : List Char} {n : Nat} {g1 g2 : List Char}
    (h : checkAt t n = some (g1, g2)) :
    3 ≤ min (countRun Char.isDigit ((t.drop n).drop (countRun isPyWS (t.drop n)))) 5 ∧
    g1 = t.take n ∧
    g2 = ((t.drop n).drop (countRun isPyWS (t.drop n))).take
      (min (countRun Char.isDigit ((t.drop n).drop (countRun isPyWS (t.drop n)))) 5) := by
  unfold checkAt at h
  dsimp only at h
  split at h
  · rename_i hd
    refine ⟨hd, ?_, ?_⟩ <;> simp_all
  · simp at h

/-- A successful backtracking pass comes from a successful `checkAt`. -/
theorem tryLens_some {t : List Char} {r : List Char × List Char} :
    ∀ {k : Nat}, tryLens t k = some r → ∃ n, checkAt t n = some r := by
  intro k
  induction k with
  | zero => intro h; simp [tryLens] at h
  | succ k ih =>
    intro h
    rw [tryLens] at h
    cases hck : checkAt t (k + 1) with
    | some r2 =>
      rw [hck] at h
      simp only [Option.some.injEq] at h
      exact ⟨k + 1, h ▸ hck⟩
    | none => rw [hck] at h; exact ih h

/-- A successful search comes from a successful `checkAt` on a suffix. -/
theorem searchChars_some {r : List Char × List Char} : ∀ {l : List Char},
    searchChars l = some r → ∃ t n, t <:+ l ∧ checkAt t n = some r := by
  intro l h
  induction l with
  | nil => simp [searchChars] at h
  | cons c cs ih =>
    rw [searchChars] at h
    cases htl : tryLens (c :: cs) (countRun isNameChar (c :: cs)) with
    | some r2 =>
      rw [htl] at h
      simp only [Option.some.injEq] at h
      obtain ⟨n, hck⟩ := tryLens_some htl
      exact ⟨c :: cs, n, List.suffix_refl _, h ▸ hck⟩
    | none =>
      rw [htl] at h
      obtain ⟨t, n, hsuf, hck⟩ := ih h
      exact ⟨t, n, hsuf.trans (List.suffix_cons c cs), hck⟩

/-- A successful search implies the presence of three consecutive digits. -/
theorem searchChars_hasRun3 {l : List Char} {r : List Char × List Char}
    (h : searchChars l = some r) : hasRun3 l = true := by
  obtain ⟨t, n, hsuf, hck⟩ := searchChars_some h
  obtain ⟨r1, r2⟩ := r
  obtain ⟨hd, -, -⟩ := checkAt_some hck
  have h3 : 3 ≤ countRun Char.isDigit ((t.drop n).drop (countRun isPyWS (t.drop n))) := by
    omega
  obtain ⟨c1, c2, c3, rest, heq, h1, h2, h3⟩ := countRun_three h3
  have hsuf2 : (t.drop n).drop (countRun isPyWS (t.drop n)) <:+ l :=
    ((List.drop_suffix _ _).trans (List.drop_suffix _ _)).trans hsuf
  obtain ⟨pre, hpre⟩ := hsuf2
  rw [heq] at hpre
  rw [← hpre]
  exact hasRun3_of_append pre rest h1 h2 h3

/-! ### Lemmas about stripping and name cleaning -/

/-- Stripping trailing whitespace leaves a decomposition of the list. -/
theorem dropTrailingWS_decomp (m : List Char) :
    m = dropTrailingWS m ++ (m.reverse.takeWhile isPyWS).reverse := by
  unfold dropTrailingWS
  rw [← List.reverse_append, List.takeWhile_append_dropWhile, List.reverse_reverse]

/-- Python `strip` only removes characters at the two ends. -/
theorem pyStrip_decomp (l : List Char) :
    l = l.takeWhile isPyWS ++ pyStrip l ++ ((l.dropWhile isPyWS).reverse.takeWhile isPyWS).reverse := by
  unfold pyStrip
  conv_lhs => rw [← List.takeWhile_append_dropWhile isPyWS l]
  rw [List.append_assoc]
  congr 1
  exact dropTrailingWS_decomp _

/-- Members of the stripped list are members of the list. -/
theorem mem_pyStrip {c : Char} {l : List Char} (h : c ∈ pyStrip l) : c ∈ l := by
  have h2 : c ∈ l.takeWhile isPyWS ++ pyStrip l ++
      ((l.dropWhile isPyWS).reverse.takeWhile isPyWS).reverse := by
    simp [h]
  rwa [← pyStrip_decomp l] at h2

/-- The head surviving `dropWhile` falsifies the predicate. -/
theorem head?_dropWhile {p : Char → Bool} : ∀ {l : List Char} {c : Char},
    (l.dropWhile p).head? = some c → p c = false := by
  intro l
  induction l with
  | nil => intro c h; simp at h
  | cons x xs ih =>
    intro c h
    by_cases hx : p x = true
    · rw [List.dropWhile_cons_of_pos hx] at h
      exact ih h
    · rw [List.dropWhile_cons_of_neg hx] at h
      simp at h
      rw [← h]
      simpa using hx

/-- The head is unchanged by trailing-whitespace removal. -/
theorem head?_dropTrailingWS {m : List Char} {c : Char}
    (h : (dropTrailingWS m).head? = some c) : m.head? = some c := by
  rcases hd : dropTrailingWS m with _ | ⟨x, rest⟩
  · rw [hd] at h; simp at h
  · rw [hd] at h
    simp at h
    have := dropTrailingWS_decomp m
    rw [hd] at this
    rw [this, h]
    simp

/-- The first character of a stripped list is not whitespace. -/
theorem pyStrip_head {l : List Char} {c : Char}
    (h : (pyStrip l).head? = some c) : isPyWS c = false :=
  head?_dropWhile (head?_dropTrailingWS h)

/-- The last character of a stripped list is not whitespace. -/
theorem pyStrip_getLast {l : List Char} {c : Char}
    (h : (pyStrip l).getLast? = some c) : isPyWS c = false := by
  unfold pyStrip dropTrailingWS at h
  rw [List.getLast?_reverse] at h
  exact head?_dropWhile h

/-- Inversion of a successful `parseLineChars`. -/
theorem parseLineChars_some {line : List Char} {m : Member}
    (h : parseLineChars line = some m) :
    ∃ g1 g2, searchChars (pyStrip line) = some (g1, g2) ∧
      m = ⟨⟨cleanName g1⟩, Int.ofNat (digitsVal g2)⟩ := by
  unfold parseLineChars at h
  dsimp only at h
  split at h
  · simp at h
  · cases hs : searchChars (pyStrip line) with
    | none => rw [hs] at h; simp at h
    | some g =>
      obtain ⟨g1, g2⟩ := g
      rw [hs] at h
      simp only [Option.some.injEq] at h
      exact ⟨g1, g2, rfl, h.symm⟩

/-- Lines without three consecutive digits produce no record. -/
theorem parseLineChars_eq_none {line : List Char} (h : hasRun3 line = false) :
    parseLineChars line = none := by
  cases hp : parseLineChars line with
  | none => rfl
  | some m =>
    obtain ⟨g1, g2, hs, -⟩ := parseLineChars_some hp
    have h1 : hasRun3 (pyStrip line) = true := searchChars_hasRun3 hs
    have h2 : hasRun3 line = true := by
      conv_lhs => rw [pyStrip_decomp line]
      exact hasRun3_of_middle _ _ h1
    rw [h2] at h
    cases h

/-! ### Bounding the points value -/

/-- Folded digit accumulation stays below the positional bound. -/
theorem digitsVal_aux_lt : ∀ (l : List Char) (acc : Nat),
    (∀ c ∈ l, c.isDigit = true) →
    l.foldl (fun a c => 10 * a + (c.toNat - 48)) acc < (acc + 1) * 10 ^ l.length := by
  intro l
  induction l with
  | nil => intro acc _; simp
  | cons c cs ih =>
    intro acc h
    have hc : c.isDigit = true := h c (by simp)
    have hb : 48 ≤ c.toNat ∧ c.toNat ≤ 57 := by
      simp [Char.isDigit] at hc
      obtain ⟨h1, h2⟩ := hc
      exact ⟨h1, h2⟩
    have hd : c.toNat - 48 ≤ 9 := by omega
    have hstep := ih (10 * acc + (c.toNat - 48)) (fun x hx => h x (by simp [hx]))
    have hmul : (10 * acc + (c.toNat - 48) + 1) * 10 ^ cs.length ≤
        (acc + 1) * 10 ^ (cs.length + 1) := by
      rw [pow_succ]
      calc (10 * acc + (c.toNat - 48) + 1) * 10 ^ cs.length
          ≤ ((acc + 1) * 10) * 10 ^ cs.length :=
            Nat.mul_le_mul_right _ (by omega)
        _ = (acc + 1) * (10 ^ cs.length * 10) := by ring
    calc (c :: cs).foldl (fun a c => 10 * a + (c.toNat - 48)) acc
        = cs.foldl (fun a c => 10 * a + (c.toNat - 48)) (10 * acc + (c.toNat - 48)) := rfl
      _ < (10 * acc + (c.toNat - 48) + 1) * 10 ^ cs.length := hstep
      _ ≤ (acc + 1) * 10 ^ (cs.length + 1) := hmul

/-- Value bound for an all-digit string. -/
theorem digitsVal_lt {l : List Char} (h : ∀ c ∈ l, c.isDigit = true) :
    digitsVal l < 10 ^ l.length := by
  have := digitsVal_aux_lt l 0 h
  simpa [digitsVal] using this

/-- Characters of a cleaned name all come from the kept class. -/
theorem cleanName_chars {g : List Char} : ∀ c ∈ cleanName g, isKeptChar c = true := by
  intro c hc
  unfold cleanName at hc
  exact (List.mem_filter.mp (mem_pyStrip hc)).2

/-- A cleaned name has no leading whitespace. -/
theorem cleanName_head {g : List Char} {c : Char}
    (h : (cleanName g).head? = some c) : isPyWS c = false := by
  unfold cleanName at h
  exact pyStrip_head h

/-- A cleaned name has no trailing whitespace. -/
theorem cleanName_getLast {g : List Char} {c : Char}
    (h : (cleanName g).getLast? = some c) : isPyWS c = false := by
  unfold cleanName at h
  exact pyStrip_getLast h

/-- C2 (corrected): on the line `"PlayerOne 1500"` the parser produces
exactly one record, namely Name `"PlayerOne 1"` and Points `500` (the
greedy name group absorbs the leading `1` of the number); and every line
with no run of three consecutive digits (hence no run of 3 to 5 digits)
produces no record. -/
theorem c2_parse_behavior :
    extract_names_and_points "PlayerOne 1500" = [⟨"PlayerOne 1", 500⟩] ∧
    ∀ line : List Char, hasRun3 line = false → parseLineChars line = none := by
  refine ⟨by decide, ?_⟩
  intro line h
  exact parseLineChars_eq_none h

/-- C2 witness: a line whose longest digit run has length two yields no
record. -/
theorem c2_parse_behavior_witness : parseLineChars "PlayerOne 15".toList = none :=
  c2_parse_behavior.2 "PlayerOne 15".toList (by decide)

/-- C10 counterexample: the line `"abc 000"` produces the record
(Name `"abc"`, Points `0`), whose Points is below 100, refuting the
claimed lower bound. -/
theorem c10_counterexample :
    extract_names_and_points "abc 000" = [⟨"abc", 0⟩] ∧
    ¬ ∀ m ∈ extract_names_and_points "abc 000", 100 ≤ m.Points := by
  exact ⟨by decide, by decide⟩

/-- C10 (amended): every record produced by `extract_names_and_points`
has 0 ≤ Points ≤ 99999 (a digit group may carry leading zeros, so values
below 100 occur), and a Name consisting only of ASCII letters, digits,
underscores and spaces, with no leading and no trailing whitespace. -/
theorem c10_record_invariants (text : String) :
    ∀ m ∈ extract_names_and_points text,
      (∀ c ∈ m.Name.toList, c.isAlpha = true ∨ c.isDigit = true ∨ c = '_' ∨ c = ' ') ∧
      (∀ c, m.Name.toList.head? = some c → isPyWS c = false) ∧
      (∀ c, m.Name.toList.getLast? = some c → isPyWS c = false) ∧
      0 ≤ m.Points ∧ m.Points ≤ 99999 := by
  intro m hm
  simp only [extract_names_and_points, List.mem_filterMap] at hm
  obtain ⟨line, -, hp⟩ := hm
  obtain ⟨g1, g2, hs, hm2⟩ := parseLineChars_some hp
  obtain ⟨t, n, -, hck⟩ := searchChars_some hs
  obtain ⟨hd3, -, hg2⟩ := checkAt_some hck
  have hdle : min (countRun Char.isDigit ((t.drop n).drop (countRun isPyWS (t.drop n)))) 5 ≤
      countRun Char.isDigit ((t.drop n).drop (countRun isPyWS (t.drop n))) :=
    Nat.min_le_left _ _
  have hd5 : min (countRun Char.isDigit ((t.drop n).drop (countRun isPyWS (t.drop n)))) 5 ≤ 5 :=
    Nat.min_le_right _ _
  have hdig : ∀ c ∈ g2, c.isDigit = true := by
    rw [hg2]
    exact countRun_take_all hdle
  have hlen : g2.length ≤ 5 := by
    rw [hg2, List.length_take]
    omega
  have hval : digitsVal g2 ≤ 99999 := by
    have h1 := digitsVal_lt hdig
    have h2 : 10 ^ g2.length ≤ 10 ^ 5 := Nat.pow_le_pow_right (by norm_num) hlen
    norm_num at h2
    omega
  have hNm : m.Name.toList = cleanName g1 := by rw [hm2]; rfl
  have hPt : m.Points = Int.ofNat (digitsVal g2) := by rw [hm2]
  refine ⟨?_, ?_, ?_, ?_, ?_⟩
  · intro c hc
    rw [hNm] at hc
    have hk := cleanName_chars c hc
    simp only [isKeptChar, Bool.or_eq_true, decide_eq_true_eq] at hk
    tauto
  · intro c hc
    rw [hNm] at hc
    exact cleanName_head hc
  · intro c hc
    rw [hNm] at hc
    exact cleanName_getLast hc
  · rw [hPt]
    exact Int.ofNat_nonneg _
  · rw [hPt, Int.ofNat_eq_natCast]
    exact_mod_cast hval

/-- C10 witness: the bounds hold on the record extracted from a concrete
line. -/
theorem c10_record_invariants_witness :
    0 ≤ (Member.mk "PlayerOne 1" 500).Points ∧ (Member.mk "PlayerOne 1" 500).Points ≤ 99999 :=
  ⟨(c10_record_invariants "PlayerOne 1500" ⟨"PlayerOne 1", 500⟩ (by decide)).2.2.2.1,
   (c10_record_invariants "PlayerOne 1500" ⟨"PlayerOne 1", 500⟩ (by decide)).2.2.2.2⟩

/-! ### Lemmas about the deduplicating export -/

/-- Boolean membership test used by `drop_duplicates`. -/
theorem any_beq_iff (seen : List (String × Int)) (k : String × Int) :
    (seen.any (fun x => k == x)) = true ↔ k ∈ seen := by
  simp only [List.any_eq_true, beq_iff_eq]
  constructor
  · rintro ⟨x, hx, rfl⟩
    exact hx
  · intro h
    exact ⟨k, h, rfl⟩

/-- Keys of deduplicated rows: exactly the input keys not seen before. -/
theorem member_dd_keys : ∀ (l : List Member) (seen : List (String × Int)) (p : String × Int),
    p ∈ (drop_duplicates memberKey (fun a b => a == b) seen l).map memberKey ↔
      (p ∈ l.map memberKey ∧ p ∉ seen) := by
  intro l
  induction l with
  | nil => intro seen p; simp [drop_duplicates]
  | cons r rs ih =>
    intro seen p
    rw [drop_duplicates]
    split
    · rename_i hany
      have hmem : memberKey r ∈ seen := (any_beq_iff seen (memberKey r)).mp hany
      rw [ih]
      simp only [List.map_cons, List.mem_cons]
      constructor
      · rintro ⟨hp, hns⟩
        exact ⟨Or.inr hp, hns⟩
      · rintro ⟨hp | hp, hns⟩
        · exact absurd (hp ▸ hmem) hns
        · exact ⟨hp, hns⟩
    · rename_i hany
      have hmem : memberKey r ∉ seen := fun hc => hany ((any_beq_iff seen (memberKey r)).mpr hc)
      simp only [List.map_cons, List.mem_cons]
      constructor
      · rintro (hp | hp)
        · exact ⟨Or.inl hp, hp ▸ hmem⟩
        · rw [ih] at hp
          obtain ⟨h1, h2⟩ := hp
          exact ⟨Or.inr h1, fun hs => h2 (by simp [hs])⟩
      · rintro ⟨hp | hp, hns⟩
        · exact Or.inl hp
        · by_cases hpr : p = memberKey r
          · exact Or.inl hpr
          · refine Or.inr ?_
            rw [ih]
            exact ⟨hp, by simp [hpr, hns]⟩

/-- Deduplicated rows have pairwise distinct keys. -/
theorem member_dd_nodup : ∀ (l : List Member) (seen : List (String × Int)),
    ((drop_duplicates memberKey (fun a b => a == b) seen l).map memberKey).Nodup := by
  intro l
  induction l with
  | nil => intro seen; simp [drop_duplicates]
  | cons r rs ih =>
    intro seen
    rw [drop_duplicates]
    split
    · exact ih seen
    · simp only [List.map_cons, List.nodup_cons]
      refine ⟨fun hc => ?_, ih _⟩
      exact ((member_dd_keys rs (memberKey r :: seen) (memberKey r)).mp hc).2 (by simp)

/-- Deduplicated rows are rows of the input. -/
theorem member_dd_subset : ∀ (l : List Member) (seen : List (String × Int)) (m : Member),
    m ∈ drop_duplicates memberKey (fun a b => a == b) seen l → m ∈ l := by
  intro l
  induction l with
  | nil => intro seen m h; simp [drop_duplicates] at h
  | cons r rs ih =>
    intro seen m h
    rw [drop_duplicates] at h
    split at h
    · exact List.mem_cons_of_mem r (ih seen m h)
    · rcases List.mem_cons.mp h with h | h
      · exact h ▸ List.mem_cons_self r rs
      · exact List.mem_cons_of_mem r (ih _ m h)

/-- The (Name, Points) pair determines the record. -/
theorem memberKey_inj {a b : Member} (h : memberKey a = memberKey b) : a = b := by
  cases a
  cases b
  simp [memberKey] at h
  simp [h.1, h.2]

/-- Every member of a list has a first occurrence. -/
theorem exists_first_get : ∀ {l : List Member} {m : Member}, m ∈ l →
    ∃ j, ∃ hj : j < l.length, l.get ⟨j, hj⟩ = m ∧
      ∀ i, ∀ hi : i < j, l.get ⟨i, by omega⟩ ≠ m := by
  intro l
  induction l with
  | nil => intro m h; simp at h
  | cons x xs ih =>
    intro m h
    by_cases hx : x = m
    · exact ⟨0, by simp, hx, fun i hi => absurd hi (by omega)⟩
    · have hm : m ∈ xs := by
        rcases List.mem_cons.mp h with h1 | h1
        · exact absurd h1.symm hx
        · exact h1
      obtain ⟨j, hj, hget, hmin⟩ := ih hm
      refine ⟨j + 1, by simpa using Nat.succ_lt_succ hj, hget, ?_⟩
      intro i hi
      cases i with
      | zero => exact hx
      | succ i2 => exact hmin i2 (by omega)

/-- C1: for every input list of records, the exported table contains each
distinct (Name, Points) pair exactly once (same key membership and no two
rows with equal keys), its size equals the number of distinct key pairs
of the input, and each surviving row is the first occurrence of its key
pair in input order. -/
theorem c1_dedup_export (l : List Member) :
    (∀ p, p ∈ (member_export l).map memberKey ↔ p ∈ l.map memberKey) ∧
    ((member_export l).map memberKey).Nodup ∧
    (member_export l).length = (l.map memberKey).toFinset.card ∧
    ∀ m ∈ member_export l, ∃ j, ∃ hj : j < l.length, l.get ⟨j, hj⟩ = m ∧
      ∀ i, ∀ hi : i < j, memberKey (l.get ⟨i, by omega⟩) ≠ memberKey m := by
  have hkeys : ∀ p, p ∈ (member_export l).map memberKey ↔ p ∈ l.map memberKey := by
    intro p
    rw [member_export, member_dd_keys]
    simp
  have hnodup : ((member_export l).map memberKey).Nodup := member_dd_nodup l []
  refine ⟨hkeys, hnodup, ?_, ?_⟩
  · calc (member_export l).length
        = ((member_export l).map memberKey).length := (List.length_map _ _).symm
      _ = ((member_export l).map memberKey).toFinset.card :=
          (List.toFinset_card_of_nodup hnodup).symm
      _ = (l.map memberKey).toFinset.card := by
          congr 1
          ext p
          simp only [List.mem_toFinset]
          exact hkeys p
  · intro m hm
    obtain ⟨j, hj, hget, hmin⟩ := exists_first_get (member_dd_subset l [] m hm)
    exact ⟨j, hj, hget, fun i hi hk => hmin i hi (memberKey_inj hk)⟩

/-- C1 witness: the dedup properties evaluated on a concrete record list. -/
theorem c1_dedup_export_witness :
    ((member_export [⟨"A", 1⟩, ⟨"A", 1⟩, ⟨"B", 2⟩]).map memberKey).Nodup ∧
    (member_export [⟨"A", 1⟩, ⟨"A", 1⟩, ⟨"B", 2⟩]).length =
      (([⟨"A", 1⟩, ⟨"A", 1⟩, ⟨"B", 2⟩] : List Member).map memberKey).toFinset.card ∧
    ∃ j, ∃ hj : j < ([⟨"A", 1⟩, ⟨"A", 1⟩, ⟨"B", 2⟩] : List Member).length,
      ([⟨"A", 1⟩, ⟨"A", 1⟩, ⟨"B", 2⟩] : List Member).get ⟨j, hj⟩ = ⟨"B", 2⟩ ∧
      ∀ i, ∀ hi : i < j,
        memberKey (([⟨"A", 1⟩, ⟨"A", 1⟩, ⟨"B", 2⟩] : List Member).get ⟨i, by omega⟩) ≠
          memberKey ⟨"B", 2⟩ :=
  ⟨(c1_dedup_export [⟨"A", 1⟩, ⟨"A", 1⟩, ⟨"B", 2⟩]).2.1,
   (c1_dedup_export [⟨"A", 1⟩, ⟨"A", 1⟩, ⟨"B", 2⟩]).2.2.1,
   (c1_dedup_export [⟨"A", 1⟩, ⟨"A", 1⟩, ⟨"B", 2⟩]).2.2.2 ⟨"B", 2⟩ (by decide)⟩

/-! ### Lemmas about the capture loop -/

/-- Unfolding of one iteration of the capture loop. -/
theorem capture_loop_aux_succ {α : Type} [DecidableEq α] (frames : Nat → List (List α))
    (sF eF : Nat → Bool) (fuel i consec : Nat) (prev : Option (List (List α))) :
    capture_loop_aux frames sF eF (fuel + 1) i consec prev =
      if sF i then []
      else if eF i then []
      else
        let consec2 :=
          match prev with
          | some p => if array_equal (frames i) p then consec + 1 else 0
          | none => consec
        if 2 ≤ consec2 then [i]
        else i :: capture_loop_aux frames sF eF fuel (i + 1) consec2 (some (frames i)) := rfl

/-- Exhausted fuel stops the capture loop. -/
theorem capture_loop_aux_zero {α : Type} [DecidableEq α] (frames : Nat → List (List α))
    (sF eF : Nat → Bool) (i consec : Nat) (prev : Option (List (List α))) :
    capture_loop_aux frames sF eF 0 i consec prev = [] := rfl

/-- The capture loop records consecutive indices: from state `i` it
captures `i, i+1, ...` until it stops, never more than `fuel` frames. -/
theorem capture_loop_aux_range {α : Type} [DecidableEq α] (frames : Nat → List (List α))
    (sF eF : Nat → Bool) : ∀ (fuel i consec : Nat) (prev : Option (List (List α))),
    ∃ k, k ≤ fuel ∧ capture_loop_aux frames sF eF fuel i consec prev = List.range' i k := by
  intro fuel
  induction fuel with
  | zero => intro i consec prev; exact ⟨0, Nat.le_refl 0, rfl⟩
  | succ fuel ih =>
    intro i consec prev
    rw [capture_loop_aux_succ]
    by_cases hs : sF i = true
    · rw [if_pos hs]
      exact ⟨0, by omega, rfl⟩
    rw [if_neg hs]
    by_cases he : eF i = true
    · rw [if_pos he]
      exact ⟨0, by omega, rfl⟩
    rw [if_neg he]
    dsimp only
    rcases prev with _ | p
    · dsimp only
      by_cases h2 : 2 ≤ consec
      · rw [if_pos h2]
        exact ⟨1, by omega, (List.range'_succ i 0 1).symm ▸ by simp [List.range'_succ]⟩
      · rw [if_neg h2]
        obtain ⟨k, hk, heq⟩ := ih (i + 1) consec (some (frames i))
        exact ⟨k + 1, by omega, by rw [heq]; exact (List.range'_succ i k 1).symm⟩
    · dsimp only
      by_cases hae : array_equal (frames i) p = true
      · rw [if_pos hae]
        by_cases h2 : 2 ≤ consec + 1
        · rw [if_pos h2]
          exact ⟨1, by omega, by simp [List.range'_succ]⟩
        · rw [if_neg h2]
          obtain ⟨k, hk, heq⟩ := ih (i + 1) (consec + 1) (some (frames i))
          exact ⟨k + 1, by omega, by rw [heq]; exact (List.range'_succ i k 1).symm⟩
      · rw [if_neg hae]
        by_cases h2 : 2 ≤ 0
        · omega
        · rw [if_neg h2]
          obtain ⟨k, hk, heq⟩ := ih (i + 1) 0 (some (frames i))
          exact ⟨k + 1, by omega, by rw [heq]; exact (List.range'_succ i k 1).symm⟩

/-- When the counter is already positive and the new frame equals the
previous one, the loop captures this frame and stops. -/
theorem capture_loop_aux_stop {α : Type} [DecidableEq α] (frames : Nat → List (List α))
    (sF eF : Nat → Bool) (i consec : Nat) (p : List (List α))
    (hcons : 1 ≤ consec) (hae : array_equal (frames i) p = true) :
    ∀ fuel, i ∈ capture_loop_aux frames sF eF fuel i consec (some p) →
      capture_loop_aux frames sF eF fuel i consec (some p) = [i] := by
  intro fuel
  cases fuel with
  | zero => intro hmem; simp [capture_loop_aux_zero] at hmem
  | succ fuel =>
    intro hmem
    rw [capture_loop_aux_succ] at hmem ⊢
    by_cases hs : sF i = true
    · rw [if_pos hs] at hmem
      simp at hmem
    rw [if_neg hs] at hmem ⊢
    by_cases he : eF i = true
    · rw [if_pos he] at hmem
      simp at hmem
    rw [if_neg he] at hmem ⊢
    dsimp only at hmem ⊢
    rw [if_pos hae] at hmem ⊢
    rw [if_pos (by omega : 2 ≤ consec + 1)]

/-- Once two consecutive duplicates of frame `j` are seen at `j+1` and
`j+2`, the loop captures exactly those two further frames. -/
theorem capture_loop_aux_third {α : Type} [DecidableEq α] (frames : Nat → List (List α))
    (sF eF : Nat → Bool) (j : Nat)
    (e1 : frames j = frames (j + 1)) (e2 : frames (j + 1) = frames (j + 2)) :
    ∀ (fuel consec : Nat),
      (j + 2) ∈ capture_loop_aux frames sF eF fuel (j + 1) consec (some (frames j)) →
      capture_loop_aux frames sF eF fuel (j + 1) consec (some (frames j)) = [j + 1, j + 2] := by
  intro fuel
  cases fuel with
  | zero => intro consec hmem; simp [capture_loop_aux_zero] at hmem
  | succ fuel =>
    intro consec hmem
    rw [capture_loop_aux_succ] at hmem ⊢
    by_cases hs : sF (j + 1) = true
    · rw [if_pos hs] at hmem
      simp at hmem
    rw [if_neg hs] at hmem ⊢
    by_cases he : eF (j + 1) = true
    · rw [if_pos he] at hmem
      simp at hmem
    rw [if_neg he] at hmem ⊢
    dsimp only at hmem ⊢
    have hae1 : array_equal (frames (j + 1)) (frames j) = true :=
      (array_equal_eq_true _ _).mpr e1.symm
    rw [if_pos hae1] at hmem ⊢
    by_cases hc : 2 ≤ consec + 1
    · rw [if_pos hc] at hmem
      simp at hmem
    · rw [if_neg hc] at hmem ⊢
      have hmem2 : (j + 2) ∈
          capture_loop_aux frames sF eF fuel (j + 1 + 1) (consec + 1) (some (frames (j + 1))) := by
        rcases List.mem_cons.mp hmem with h | h
        · omega
        · exact h
      have hrec : capture_loop_aux frames sF eF fuel (j + 1 + 1) (consec + 1)
          (some (frames (j + 1))) = [j + 2] :=
        capture_loop_aux_stop frames sF eF (j + 2) (consec + 1) (frames (j + 1)) (by omega)
          ((array_equal_eq_true _ _).mpr e2.symm) fuel hmem2
      rw [hrec]

/-- From any state at index `i ≤ j`, a duplicate triple at frames
`j, j+1, j+2` with the third one captured forces the loop to stop right
after capture `j+2`. -/
theorem capture_loop_aux_dup {α : Type} [DecidableEq α] (frames : Nat → List (List α))
    (sF eF : Nat → Bool) (j : Nat)
    (e1 : frames j = frames (j + 1)) (e2 : frames (j + 1) = frames (j + 2)) :
    ∀ (fuel i consec : Nat) (prev : Option (List (List α))), i ≤ j →
      (j + 2) ∈ capture_loop_aux frames sF eF fuel i consec prev →
      capture_loop_aux frames sF eF fuel i consec prev = List.range' i (j + 3 - i) := by
  intro fuel
  induction fuel with
  | zero => intro i consec prev hij hmem; simp [capture_loop_aux_zero] at hmem
  | succ fuel ih =>
    intro i consec prev hij hmem
    rw [capture_loop_aux_succ] at hmem ⊢
    by_cases hs : sF i = true
    · rw [if_pos hs] at hmem
      simp at hmem
    rw [if_neg hs] at hmem ⊢
    by_cases he : eF i = true
    · rw [if_pos he] at hmem
      simp at hmem
    rw [if_neg he] at hmem ⊢
    dsimp only at hmem ⊢
    have key : ∀ c : Nat,
        (j + 2) ∈ (if 2 ≤ c then [i]
          else i :: capture_loop_aux frames sF eF fuel (i + 1) c (some (frames i))) →
        (if 2 ≤ c then [i]
          else i :: capture_loop_aux frames sF eF fuel (i + 1) c (some (frames i))) =
          List.range' i (j + 3 - i) := by
      intro c hmemc
      by_cases hc : 2 ≤ c
      · rw [if_pos hc] at hmemc ⊢
        simp at hmemc
        omega
      · rw [if_neg hc] at hmemc ⊢
        have hmem2 : (j + 2) ∈ capture_loop_aux frames sF eF fuel (i + 1) c (some (frames i)) := by
          rcases List.mem_cons.mp hmemc with h | h
          · omega
          · exact h
        rcases Nat.lt_or_ge i j with hlt | hge
        · rw [ih (i + 1) c (some (frames i)) (by omega) hmem2]
          rw [show j + 3 - i = (j + 3 - (i + 1)) + 1 from by omega]
          exact (List.range'_succ i (j + 3 - (i + 1)) 1).symm
        · have hi : i = j := by omega
          subst hi
          have htail := capture_loop_aux_third frames sF eF i e1 e2 fuel c hmem2
          rw [htail]
          rw [show i + 3 - i = 3 from by omega]
          rw [List.range'_succ, List.range'_succ, List.range'_succ, List.range'_zero]
    rcases prev with _ | p
    · exact key consec hmem
    · dsimp only at hmem ⊢
      by_cases hae : array_equal (frames i) p = true
      · rw [if_pos hae] at hmem ⊢
        exact key (consec + 1) hmem
      · rw [if_neg hae] at hmem ⊢
        exact key 0 hmem

/-- C5: in every execution, the number of captured frames never exceeds
`MAX_CAPTURES`, and as soon as three consecutive pixel-identical captures
occur (the third one being taken at index `j+2`), the loop stops there:
the captured indices are exactly `0, ..., j+2`. -/
theorem c5_capture_termination {α : Type} [DecidableEq α] (frames : Nat → List (List α))
    (stopFlag captureError : Nat → Bool) :
    (capture_loop frames stopFlag captureError).length ≤ MAX_CAPTURES ∧
    ∀ j, array_equal (frames j) (frames (j + 1)) = true →
      array_equal (frames (j + 1)) (frames (j + 2)) = true →
      (j + 2) ∈ capture_loop frames stopFlag captureError →
      capture_loop frames stopFlag captureError = List.range (j + 3) := by
  constructor
  · obtain ⟨k, hk, heq⟩ := capture_loop_aux_range frames stopFlag captureError MAX_CAPTURES 0 0 none
    rw [capture_loop, heq, List.length_range']
    exact hk
  · intro j h1 h2 hmem
    rw [capture_loop] at hmem ⊢
    rw [capture_loop_aux_dup frames stopFlag captureError j ((array_equal_eq_true _ _).mp h1)
      ((array_equal_eq_true _ _).mp h2) MAX_CAPTURES 0 0 none (by omega) hmem]
    rw [List.range_eq_range', Nat.sub_zero]

/-- C5 witness: with a never-changing screen and no stop or error, the
loop takes exactly three screenshots. -/
theorem c5_capture_termination_witness :
    capture_loop runEnvBadJson.frames runEnvBadJson.stopFlag runEnvBadJson.captureError =
      List.range 3 ∧
    (capture_loop runEnvBadJson.frames runEnvBadJson.stopFlag
      runEnvBadJson.captureError).length ≤ MAX_CAPTURES :=
  ⟨(c5_capture_termination _ _ _).2 0 (by decide) (by decide) (by decide),
   (c5_capture_termination _ _ _).1⟩

/-- The analysis phase operates on exactly the screenshot files the
capture phase collected. -/
theorem mainRun_ok_files {α β : Type} [DecidableEq α] (env : RunEnv α) (rz : β)
    (files : List String) (records : List Json) (exported : Option (List Json))
    (h : mainRun env rz = .ok (files, records, exported)) :
    files = (capture_loop env.frames env.stopFlag env.captureError).map screenshotFilename := by
  rw [mainRun] at h
  cases hx : (if ((capture_loop env.frames env.stopFlag env.captureError).map
          screenshotFilename).isEmpty = true
      then Except.ok ([] : List Json)
      else extract_with_gemini env.gemini
        ((capture_loop env.frames env.stopFlag env.captureError).map screenshotFilename) rz) with
  | error e =>
    rw [hx] at h
    simp at h
  | ok recs =>
    rw [hx] at h
    simp only [Except.ok.injEq, Prod.mk.injEq] at h
    exact h.1.symm

/-- C9: when the capture backend raises at iteration `i` (and the stop
flag is not set there), the loop terminates at that iteration without
retrying and without recording a capture for `i`, keeping exactly the
files collected so far; and the analysis phase receives exactly the
screenshot files the capture loop returned. -/
theorem c9_capture_error_abort {α β : Type} [DecidableEq α] (env : RunEnv α) (rz : β)
    (fuel i consec : Nat) (prev : Option (List (List α)))
    (hs : env.stopFlag i = false) (he : env.captureError i = true) :
    capture_loop_aux env.frames env.stopFlag env.captureError (fuel + 1) i consec prev = [] ∧
    ∀ files records exported, mainRun env rz = .ok (files, records, exported) →
      files = (capture_loop env.frames env.stopFlag env.captureError).map screenshotFilename := by
  constructor
  · rw [capture_loop_aux_succ, if_neg (by simp [hs]), if_pos he]
  · intro files records exported hrun
    exact mainRun_ok_files env rz files records exported hrun

/-- C9 witness: with the capture backend raising at iteration 1, the loop
keeps only the first screenshot. -/
theorem c9_capture_error_abort_witness :
    capture_loop_aux runEnvCapErr.frames runEnvCapErr.stopFlag runEnvCapErr.captureError
      (999 + 1) 1 0 (some [[0]]) = [] ∧
    ∀ files records exported, mainRun runEnvCapErr (1 : Nat) = .ok (files, records, exported) →
      files = (capture_loop runEnvCapErr.frames runEnvCapErr.stopFlag
        runEnvCapErr.captureError).map screenshotFilename :=
  c9_capture_error_abort runEnvCapErr 1 999 1 0 (some [[0]]) rfl rfl

/-- C4 counterexample: on a run whose remote response is not valid JSON,
the extraction yields no records and the run completes, but no
spreadsheet file is written (the export component is `none`), contrary to
the claim that a (possibly empty) output file is written. -/
theorem c4_counterexample :
    mainRun runEnvBadJson (1 : Nat) =
      .ok (["analysis/guild_screenshot_0.png", "analysis/guild_screenshot_1.png",
            "analysis/guild_screenshot_2.png"], [], none) := by
  rfl

/-- C4 (amended): when the remote response is malformed (its text is not
valid JSON, or parses to a value that is not an object with a "players"
list), the extraction returns an empty record list for any path list, and
the run completes without error — but the export step is skipped, so no
spreadsheet file is written. -/
theorem c4_malformed_response {α β : Type} [DecidableEq α] (env : RunEnv α) (rz : β)
    (k text : String)
    (hk : env.gemini.apiKey = some k)
    (hreq : ∀ p, env.gemini.request p = .ok text)
    (hmal : ∀ dat, env.gemini.loads (cleanResponse text) = some dat → playersListOf dat = none) :
    (∀ paths, extract_with_gemini env.gemini paths rz = .ok []) ∧
    mainRun env rz = .ok ((capture_loop env.frames env.stopFlag env.captureError).map
      screenshotFilename, [], none) := by
  have hext : ∀ paths, extract_with_gemini env.gemini paths rz = .ok [] := by
    intro paths
    unfold extract_with_gemini
    rw [hk]
    dsimp only
    rw [hreq]
    dsimp only
    cases hl : env.gemini.loads (cleanResponse text) with
    | none => rfl
    | some dat =>
      dsimp only
      rw [hmal dat hl]
  refine ⟨hext, ?_⟩
  rw [mainRun]
  by_cases hempty : ((capture_loop env.frames env.stopFlag env.captureError).map
      screenshotFilename).isEmpty = true
  · rw [if_pos hempty]
    rfl
  · rw [if_neg hempty, hext]
    rfl

/-- C4 witness: the amended behaviour on a concrete malformed-response
run. -/
theorem c4_malformed_response_witness :
    extract_with_gemini runEnvBadJson.gemini ["analysis/guild_screenshot_0.png"] (1 : Nat) =
      .ok [] ∧
    mainRun runEnvBadJson (1 : Nat) =
      .ok ((capture_loop runEnvBadJson.frames runEnvBadJson.stopFlag
        runEnvBadJson.captureError).map screenshotFilename, [], none) :=
  ⟨(c4_malformed_response runEnvBadJson 1 "k" "this is not json" rfl (fun _ => rfl)
      (fun _ h => nomatch h)).1 ["analysis/guild_screenshot_0.png"],
   (c4_malformed_response runEnvBadJson 1 "k" "this is not json" rfl (fun _ => rfl)
      (fun _ h => nomatch h)).2⟩

/-- C6: for frames of the same rectangular shape, `np.array_equal`
reports them as duplicates exactly when every pixel of the two frames is
equal; in particular a single differing pixel makes the check report
`false`. -/
theorem c6_array_equal_iff {α : Type} [DecidableEq α] [Inhabited α]
    (a b : List (List α)) (h w : Nat)
    (ha : a.length = h) (hb : b.length = h)
    (ha2 : ∀ r ∈ a, r.length = w) (hb2 : ∀ r ∈ b, r.length = w) :
    array_equal a b = true ↔
      ∀ i, i < h → ∀ j, j < w →
        (a.getD i []).getD j default = (b.getD i []).getD j default := by
  rw [array_equal_eq_true]
  constructor
  · rintro rfl
    intro i hi j hj
    rfl
  · intro hpix
    refine List.ext_get (by omega) ?_
    intro n h1 h2
    have hra : (a.get ⟨n, h1⟩).length = w := ha2 _ (List.get_mem a n h1)
    have hrb : (b.get ⟨n, h2⟩).length = w := hb2 _ (List.get_mem b n h2)
    refine List.ext_get (by omega) ?_
    intro m hm1 hm2
    have hp := hpix n (by omega) m (by omega)
    rw [List.getD_eq_get a [] h1, List.getD_eq_get b [] h2] at hp
    rw [List.getD_eq_get _ default (by omega : m < (a.get ⟨n, h1⟩).length),
      List.getD_eq_get _ default (by omega : m < (b.get ⟨n, h2⟩).length)] at hp
    exact hp

/-- C6 witness: equal concrete frames are reported as duplicates; frames
differing in one pixel are not. -/
theorem c6_array_equal_iff_witness :
    array_equal [[1, 2], [3, 4]] [[1, 2], [3, 4]] = true ∧
    ¬ array_equal [[1, 2], [3, 4]] [[1, 2], [3, 5]] = true :=
  ⟨(c6_array_equal_iff [[1, 2], [3, 4]] [[1, 2], [3, 4]] 2 2 rfl rfl
      (by decide) (by decide)).mpr (by decide),
   fun hae => absurd ((c6_array_equal_iff [[1, 2], [3, 4]] [[1, 2], [3, 5]] 2 2 rfl rfl
      (by decide) (by decide)).mp hae 1 (by decide) 1 (by decide)) (by decide)⟩
